import Mathlib

/-!
Shallow embedding of the network transport and protocol core of the
voxels03 repository: the byte codec (`shared/src/serialization/byte_writer.rs`,
`byte_reader.rs`), the bit codec (`bit_writer.rs`, `bit_reader.rs`), the
legacy byte writer (`shared/src/bits_and_bytes/byte_writer.rs`), the wire
framing of both peers (`client/netcode/src/util.rs`,
`server/netcode/src/util.rs`), the server login handler
(`server/netcode/src/login_listener.rs`), the main-thread identity
allocation (`server/src/server.rs`) and the client connection poll
(`client/netcode/src/lib.rs`).

Bytes are modelled as `Nat` values below 256, buffers as `List Nat`,
machine integers as `Nat`/`Int` with explicit `% 2^w` where the machine
would wrap.  Fallible reads return `Option`; `none` models an
out-of-bounds access (a `debug_assert`/panic in the source).
-/

namespace Voxels

/-- Little-endian byte decomposition of `x`, `w` bytes wide (the model of
Rust's `to_le_bytes` on a `w`-byte unsigned integer). -/
def leBytes (w x : Nat) : List Nat :=
  (List.range w).map fun i => x / 256 ^ i % 256

/-- Value of a little-endian byte list (the model of `from_le_bytes`). -/
def leVal : List Nat → Nat
  | [] => 0
  | b :: t => b + 256 * leVal t

/-- Copy `src` into `dst` starting at index `p` (the model of
`dst[p..p + src.len()].copy_from_slice(src)`; out-of-range positions are
dropped, which in the source would be a bounds panic). -/
def setBytes : List Nat → Nat → List Nat → List Nat
  | dst, _, [] => dst
  | dst, p, b :: rest => setBytes (dst.set p b) (p + 1) rest

/-- Constants from `shared/src/net.rs`. -/
def PROTOCOL_VERSION : Nat := 0

def PROTOCOL_MAGIC : Nat := 0xB7C1

/-- NetworkId from `shared/src/net.rs`: a 16-bit per-entity identifier. -/
structure NetworkId where
  raw : Nat
  deriving DecidableEq, Repr

def NetworkId.from_raw (raw : Nat) : NetworkId := ⟨raw % 65536⟩

/-- NetworkId::INVALID, the reserved "no entity" value `0`. -/
def NetworkId.INVALID : NetworkId := NetworkId.from_raw 0

end Voxels

namespace Voxels.Ser

/-- ByteWriter from `shared/src/serialization/byte_writer.rs`: a cursor over
a caller-owned flat buffer. -/
structure ByteWriter where
  dst : List Nat
  pos : Nat
  deriving Repr

def ByteWriter.new (dst : List Nat) : ByteWriter := ⟨dst, 0⟩

/-- ByteWriter::new_for_message reserves the first 2 bytes for the length
prefix by starting the cursor at offset 2. -/
def ByteWriter.new_for_message (dst : List Nat) : ByteWriter := ⟨dst, 2⟩

def ByteWriter.bytes_written (w : ByteWriter) : Nat := w.pos

/-- ByteWriter::write: copy `src` at the cursor and advance it. -/
def ByteWriter.write (w : ByteWriter) (src : List Nat) : ByteWriter :=
  ⟨setBytes w.dst w.pos src, w.pos + src.length⟩

/-- ByteWriter::write_message_len: `(bytes_written as u16).saturating_sub(2)`
backpatched into the first two bytes, little endian.  Nat subtraction is
already saturating. -/
def ByteWriter.write_message_len (w : ByteWriter) : ByteWriter :=
  ⟨setBytes w.dst 0 (leBytes 2 (w.pos % 65536 - 2)), w.pos⟩

def ByteWriter.write_u8 (w : ByteWriter) (x : Nat) : ByteWriter :=
  w.write (leBytes 1 x)

def ByteWriter.write_u16 (w : ByteWriter) (x : Nat) : ByteWriter :=
  w.write (leBytes 2 x)

def ByteWriter.write_u32 (w : ByteWriter) (x : Nat) : ByteWriter :=
  w.write (leBytes 4 x)

def ByteWriter.write_u64 (w : ByteWriter) (x : Nat) : ByteWriter :=
  w.write (leBytes 8 x)

/-- ByteWriter::write_str: u16 byte length, then the raw UTF-8 bytes (the
string is modelled as its byte list). -/
def ByteWriter.write_str (w : ByteWriter) (s : List Nat) : ByteWriter :=
  (w.write_u16 s.length).write s

def ByteWriter.bytes (w : ByteWriter) : List Nat := w.dst.take w.pos

/-- ByteReader from `shared/src/serialization/byte_reader.rs`.  Reads past
the end are a `debug_assert` failure (unchecked in release); the model
returns `none` there. -/
structure ByteReader where
  src : List Nat
  pos : Nat
  deriving Repr

def ByteReader.new (src : List Nat) : ByteReader := ⟨src, 0⟩

def ByteReader.bytes_remaining (r : ByteReader) : Nat := r.src.length - r.pos

def ByteReader.read_u8 (r : ByteReader) : Option (Nat × ByteReader) :=
  match r.src.get? r.pos with
  | some b => some (b, ⟨r.src, r.pos + 1⟩)
  | none => none

def ByteReader.read_u16 (r : ByteReader) : Option (Nat × ByteReader) :=
  match r.src.get? r.pos, r.src.get? (r.pos + 1) with
  | some b0, some b1 => some (b0 + 256 * b1, ⟨r.src, r.pos + 2⟩)
  | _, _ => none

/-- ByteReader::read_varint15: one byte if its top bit is clear, else that
byte's low 7 bits are the low bits and a second byte supplies bits 7..14. -/
def ByteReader.read_varint15 (r : ByteReader) : Option (Nat × ByteReader) :=
  match r.read_u8 with
  | none => none
  | some (b1, r1) =>
    if b1 &&& 128 ≠ 0 then
      match r1.read_u8 with
      | none => none
      | some (b2, r2) => some ((b1 &&& 127) ||| (b2 <<< 7), r2)
    else
      some (b1, r1)

/-- ByteReader::read_str: u16 byte length then that many raw bytes (UTF-8
validation is a debug-only check in the source and is not modelled). -/
def ByteReader.read_str (r : ByteReader) : Option (List Nat × ByteReader) :=
  match r.read_u16 with
  | none => none
  | some (len, r1) =>
    if r1.pos + len ≤ r1.src.length then
      some ((r1.src.drop r1.pos).take len, ⟨r1.src, r1.pos + len⟩)
    else
      none

end Voxels.Ser

namespace Voxels.BB

/-- ByteWriter from `shared/src/bits_and_bytes/byte_writer.rs` (the legacy
writer actually imported by the login code of both peers). -/
structure ByteWriter where
  dst : List Nat
  pos : Nat
  deriving Repr

def ByteWriter.new (dst : List Nat) : ByteWriter := ⟨dst, 0⟩

def ByteWriter.new_for_message (dst : List Nat) : ByteWriter := ⟨dst, 2⟩

def ByteWriter.bytes_written (w : ByteWriter) : Nat := w.pos

def ByteWriter.write (w : ByteWriter) (src : List Nat) : ByteWriter :=
  ⟨setBytes w.dst w.pos src, w.pos + src.length⟩

def ByteWriter.write_u8 (w : ByteWriter) (x : Nat) : ByteWriter :=
  w.write (leBytes 1 x)

def ByteWriter.write_u16 (w : ByteWriter) (x : Nat) : ByteWriter :=
  w.write (leBytes 2 x)

/-- ByteWriter::write_varint15_r: writes the right-aligned 15-bit varint at
the cursor; returns the number of leading bytes to skip (1 when the value
fits one byte, 0 otherwise).  `(x & 127) | ((x & !127) << 1) | 128` is the
two-byte form. -/
def ByteWriter.write_varint15_r (w : ByteWriter) (x : Nat) : Nat × ByteWriter :=
  let x16 := x % 65536
  if x16 > 127 then
    (0, w.write_u16 ((x16 &&& 127) ||| ((x16 &&& (65536 - 128)) <<< 1 % 65536) ||| 128))
  else
    (1, (w.write_u8 7).write_u8 x16)

/-- ByteWriter::write_message_len of the legacy writer: backpatch a
right-aligned varint15 at the front of the buffer, then slide the buffer
start past the skipped byte (`self.dst = &mut self.dst[off..]`). -/
def ByteWriter.write_message_len (w : ByteWriter) : ByteWriter :=
  let len := w.pos % 65536 - 2
  let patched := (ByteWriter.new w.dst).write_varint15_r len
  ⟨patched.2.dst.drop patched.1, w.pos - patched.1⟩

/-- ByteWriter::write_varint15: the left-aligned encoding, 1 byte below
128, else 2 bytes little endian. -/
def ByteWriter.write_varint15 (w : ByteWriter) (x : Nat) : ByteWriter :=
  let x16 := x % 65536
  if x16 < 128 then
    w.write_u8 (x16 &&& 127)
  else
    w.write_u16 ((x16 &&& 127) ||| ((x16 &&& (65536 - 128)) <<< 1 % 65536) ||| 128)

def ByteWriter.write_str (w : ByteWriter) (s : List Nat) : ByteWriter :=
  (w.write_u16 s.length).write s

def ByteWriter.bytes (w : ByteWriter) : List Nat := w.dst.take w.pos

end Voxels.BB

namespace Voxels

/-- Framed read of the client, `client/netcode/src/util.rs::receive_bytes`:
the first header byte is the length when below 128, in which case the
second header byte is already the first payload byte; otherwise the length
is `header[0] - 128 + (header[1] << 7)`.  Returns the payload, `none` on a
truncated stream (and on the `buf[0]` panic when the length is zero). -/
def clientReceiveBytes (stream : List Nat) : Option (List Nat) :=
  if stream.length < 2 then none else
  let h0 := stream.getD 0 0
  let h1 := stream.getD 1 0
  let rest := stream.drop 2
  if h0 > 127 then
    let length := h0 - 128 + (h1 <<< 7)
    if rest.length < length then none else some (rest.take length)
  else
    if h0 = 0 then none
    else if rest.length < h0 - 1 then none
    else some (h1 :: rest.take (h0 - 1))

/-- Framed read of the server, `server/netcode/src/util.rs::receive_bytes`:
read exactly 2 bytes as a little-endian u16 length, then exactly that many
payload bytes.  Returns the payload, `none` on a truncated stream. -/
def serverReceiveBytes (stream : List Nat) : Option (List Nat) :=
  if stream.length < 2 then none else
  let length := stream.getD 0 0 + 256 * stream.getD 1 0
  let rest := stream.drop 2
  if rest.length < length then none else some (rest.take length)

/-- UTF-8 bytes of the username "Alice". -/
def aliceBytes : List Nat := [65, 108, 105, 99, 101]

/-- The login request bytes produced by the client,
`client/netcode/src/login.rs::try_connect` lines 34-39: a 256-byte buffer,
`new_for_message`, magic, version, username string, then
`write_message_len` — all through the legacy `bits_and_bytes` writer. -/
def clientHelloWire (username : List Nat) : List Nat :=
  let w := BB.ByteWriter.new_for_message (List.replicate 256 0)
  let w := w.write_u16 PROTOCOL_MAGIC
  let w := w.write_u16 PROTOCOL_VERSION
  let w := w.write_str username
  let w := w.write_message_len
  w.bytes

end Voxels

namespace Voxels.ServerNet

open Voxels

/-- Outcome of the server-side login validation in
`server/netcode/src/login_listener.rs::login` lines 74-86: either the
connection is closed with a numeric code and no response payload, or the
handler proceeds with the decoded username. -/
inductive LoginOutcome where
  | close (code : Nat)
  | proceed (username : List Nat)
  deriving DecidableEq, Repr

/-- Validation steps of `login`: reject with close code 1 when the payload
has fewer than 6 bytes or the magic or version mismatches (the `||` chain
short-circuits, reading only on demand); then decode the username and
reject with close code 2 when it is shorter than 3 bytes.  `none` models
an out-of-bounds read inside `read_str`. -/
def login_validate (payload : List Nat) : Option LoginOutcome :=
  let r := Ser.ByteReader.new payload
  if r.bytes_remaining < 6 then some (.close 1) else
  match r.read_u16 with
  | none => none
  | some (magic, r1) =>
    if magic ≠ PROTOCOL_MAGIC then some (.close 1) else
    match r1.read_u16 with
    | none => none
    | some (ver, r2) =>
      if ver ≠ PROTOCOL_VERSION then some (.close 1) else
      match r2.read_str with
      | none => none
      | some (username, _) =>
        if username.length < 3 then some (.close 2) else
        some (.proceed username)

/-- LoginResponse from `server/netcode/src/login_listener.rs` (positions
and rotations carried as IEEE-754 bit patterns). -/
inductive SLoginResponse where
  | accepted (nid : NetworkId) (position : Nat × Nat × Nat)
      (head_rotation : Nat × Nat) (world_seed : Nat)
  | denied (reason : List Nat)
  deriving DecidableEq, Repr

/-- Events the per-connection task sends to the main thread over the
`server_messages` channel (`server/netcode/src/message.rs::ServerMsg`). -/
inductive SEvent where
  | loginRequest (username : List Nat)
  | playerJoined (nid : NetworkId)
  | playerLeft (nid : NetworkId)
  deriving DecidableEq, Repr

/-- Trace of `ServerMsg` sends performed by one run of
`login_listener.rs::login` (and the `client_connection` it tails into),
as a function of the framed receive result, the main thread's identity
reply, and the outcomes of the two fallible stream writes:
`write_all` of the response and `finish` of the handshake stream.
Returns the events sent and the close code used, if any.
`client_connection` itself unconditionally sends `PlayerJoined` and then
`PlayerLeft` and returns `Ok` (its read loop is commented out). -/
def loginTask (recv : Option (List Nat)) (reply : SLoginResponse)
    (writeOk finishOk : Bool) : List SEvent × Option Nat :=
  match recv with
  | none => ([], none)
  | some payload =>
    match login_validate payload with
    | none => ([], none)
    | some (.close c) => ([], some c)
    | some (.proceed username) =>
      match reply with
      | .denied _ => ([SEvent.loginRequest username], some 2)
      | .accepted nid _ _ _ =>
        if !writeOk then ([SEvent.loginRequest username], none)
        else if !finishOk then ([SEvent.loginRequest username], none)
        else ([SEvent.loginRequest username, SEvent.playerJoined nid,
               SEvent.playerLeft nid], none)

/-- Identity allocation of the main thread,
`server/src/server.rs::process_net_messages` lines 35-42: every
`ServerMsg::LoginRequest` is answered with
`LoginResponse::Accepted { nid: NetworkId::from_raw(0), position: ZERO,
head_rotation: ZERO, world_seed: 0 }`. -/
def serverIdentityReply (_username : List Nat) : SLoginResponse :=
  .accepted (NetworkId.from_raw 0) (0, 0, 0) (0, 0) 0

end Voxels.ServerNet

namespace Voxels.Ser

/-- Mask `!(!0 << n)` evaluated in u32 arithmetic. -/
def mask32 (n : Nat) : Nat := (2 ^ 32 - 1) ^^^ (((2 ^ 32 - 1) <<< n) % 2 ^ 32)

/-- Mask `!(!0 << n)` evaluated in u64 arithmetic. -/
def mask64 (n : Nat) : Nat := (2 ^ 64 - 1) ^^^ (((2 ^ 64 - 1) <<< n) % 2 ^ 64)

/-- Cast of an i64 value to i32 (wrapping), used by `BitReader::int`. -/
def wrapI32 (v : Int) : Int := (v + 2 ^ 31) % 2 ^ 32 - 2 ^ 31

/-- Cast of an arbitrary Int to u32 (`value as u32`). -/
def u32ofInt (v : Int) : Nat := (v % 2 ^ 32).toNat

/-- BitWriter from `shared/src/serialization/bit_writer.rs`: a 64-bit
accumulator `current`, a bit position `bit_pos` (0-63), the remaining
byte capacity of the caller buffer (`buf`, only its length matters for
the values produced), the bytes flushed so far (`out`, the prefix the
source has split off and filled), and `bits_written`. -/
structure BitWriter where
  current : Nat
  bit_pos : Nat
  cap : Nat
  out : List Nat
  bits_written : Nat
  deriving Repr

def BitWriter.new (cap : Nat) : BitWriter := ⟨0, 0, cap, [], 0⟩

/-- BitWriter::write: flush one little-endian u32 to the output if at
least 4 bytes of capacity remain (otherwise a `debug_assert` fires and
nothing is written). -/
def BitWriter.write (w : BitWriter) (val : Nat) : BitWriter :=
  if w.cap ≥ 4 then
    { w with out := w.out ++ leBytes 4 (val % 2 ^ 32), cap := w.cap - 4,
             bits_written := w.bits_written + 32 }
  else
    w

/-- BitWriter::uint: OR the value into the accumulator at the current bit
position, advance, and flush the low 32 bits once the position reaches 32. -/
def BitWriter.uint (w : BitWriter) (value : Nat) (num_bits : Nat) : BitWriter :=
  let current := (w.current ||| (((value % 2 ^ 32) <<< w.bit_pos) % 2 ^ 64)) % 2 ^ 64
  let bit_pos := w.bit_pos + num_bits
  if bit_pos ≥ 32 then
    let w1 := BitWriter.write { w with current := current, bit_pos := bit_pos } (current % 2 ^ 32)
    { w1 with current := current >>> 32, bit_pos := bit_pos - 32 }
  else
    { w with current := current, bit_pos := bit_pos }

/-- BitWriter::int: offset-binary encoding
`((value as u32).wrapping_add(1 << (num_bits - 1))) & !(!0 << num_bits)`. -/
def BitWriter.int (w : BitWriter) (value : Int) (num_bits : Nat) : BitWriter :=
  w.uint (((u32ofInt value + (1 <<< (num_bits - 1))) % 2 ^ 32) &&& mask32 num_bits) num_bits

/-- BitWriter::bool: a 1-bit unsigned write. -/
def BitWriter.bool (w : BitWriter) (b : Bool) : BitWriter :=
  w.uint (if b then 1 else 0) 1

/-- BitWriter::flush_partials: emit the remaining partial word, then
correct `bits_written` (the flush counted a full 32 bits). -/
def BitWriter.flush_partials (w : BitWriter) : BitWriter :=
  if w.bit_pos = 0 then w
  else
    let w1 := w.write ((w.current % 2 ^ 32) &&& mask32 w.bit_pos)
    { w1 with bits_written := w1.bits_written - 32 + w.bit_pos }

def BitWriter.compute_bytes_written (w : BitWriter) : Nat :=
  (w.bits_written + 7) / 8

/-- BitReader from `shared/src/serialization/bit_reader.rs`: a pre-filled
64-bit window `current`, `bits_left` counting the unconsumed window bits,
and a byte cursor into the source buffer. -/
structure BitReader where
  current : Nat
  bits_left : Nat
  buf_pos : Nat
  buf : List Nat
  deriving Repr

/-- BitReader::read: the next chunk of 32 bits from the buffer, or zero
bits past the end (`left = 4.min(len - pos)` bytes copied into a zeroed
4-byte word). -/
def BitReader.read (r : BitReader) : Nat × BitReader :=
  let left := min 4 (r.buf.length - r.buf_pos)
  let word := leVal ((r.buf.drop r.buf_pos).take left ++ List.replicate (4 - left) 0)
  (word, { r with buf_pos := r.buf_pos + left })

/-- BitReader::new: load the first 64 bits of the (zero-extended) buffer. -/
def BitReader.new (buf : List Nat) : BitReader :=
  let r0 : BitReader := ⟨0, 64, 0, buf⟩
  let p1 := r0.read
  let p2 := p1.2.read
  { p2.2 with current := (p1.1 ||| ((p2.1 <<< 32) % 2 ^ 64)) % 2 ^ 64 }

/-- BitReader::uint: take the low `num_bits` of the window, shift it, and
refill 32 bits whenever fewer than 32 remain. -/
def BitReader.uint (r : BitReader) (num_bits : Nat) : Nat × BitReader :=
  let result := r.current &&& mask64 num_bits
  let bits_left := r.bits_left - num_bits
  let current := r.current >>> num_bits
  if bits_left < 32 then
    let rd := BitReader.read { r with current := current, bits_left := bits_left }
    (result % 2 ^ 32,
      { rd.2 with current := (current ||| ((rd.1 <<< bits_left) % 2 ^ 64)) % 2 ^ 64,
                  bits_left := bits_left + 32 })
  else
    (result % 2 ^ 32, { r with current := current, bits_left := bits_left })

/-- BitReader::int: `(u as i64 - (1 << (num_bits - 1))) as i32`. -/
def BitReader.int (r : BitReader) (num_bits : Nat) : Int × BitReader :=
  let u := r.uint num_bits
  (wrapI32 ((u.1 : Int) - ((1 <<< (num_bits - 1) : Nat) : Int)), u.2)

/-- BitReader::bool: a 1-bit unsigned read tested against zero. -/
def BitReader.bool (r : BitReader) : Bool × BitReader :=
  let u := r.uint 1
  (u.1 ≠ 0, u.2)

/-- Run a sequence of reads, keeping only the reader state.  The state
evolution of `int n` and `bool` is exactly that of `uint n` and `uint 1`,
so width lists cover every mix of the three read operations. -/
def BitReader.runReads (r : BitReader) : List Nat → BitReader
  | [] => r
  | n :: rest => BitReader.runReads (r.uint n).2 rest

end Voxels.Ser

namespace Voxels.ClientNet

open Voxels

/-- LoginResponse from `client/netcode/src/login.rs` (floats carried as
IEEE-754 bit patterns). -/
structure LoginResponse where
  nid : NetworkId
  position : Nat × Nat × Nat
  head_rotation : Nat × Nat
  world_seed : Nat
  deriving DecidableEq, Repr

/-- State of a tokio oneshot channel as seen by its receiver: a value may
still arrive, a value is ready, or the channel is closed (value already
consumed, or sender dropped without sending).  This models the external
tokio library, matching the spec's glossary: a one-shot channel carries at
most one value, consumed at most once. -/
inductive OneshotState (α : Type) where
  | pending
  | available (v : α)
  | closed
  deriving Repr

/-- Result alternatives of tokio `oneshot::Receiver::try_recv`. -/
inductive TryRecvResult (α : Type) where
  | ok (v : α)
  | empty
  | closed
  deriving Repr

/-- Non-blocking poll of a oneshot receiver: consuming the value closes
the channel, and a closed channel keeps reporting `closed`. -/
def tryRecv : OneshotState α → TryRecvResult α × OneshotState α
  | .pending => (.empty, .pending)
  | .available v => (.ok v, .closed)
  | .closed => (.closed, .closed)

/-- Connecting from `client/netcode/src/lib.rs`: the pending thread handle
and channel bundle (present until moved into a `ServerConnection`), and
the oneshot carrying `Result<LoginResponse, Box<str>>`. -/
structure Connecting where
  handle : Option Unit
  on_connect : OneshotState (Except (List Nat) LoginResponse)

/-- Result of one `Connecting::tick` call. -/
inductive TickResult where
  | okNone
  | okSome (resp : LoginResponse)
  | errLogin (msg : List Nat)
  | errClosed
  | panicked
  deriving Repr

/-- Connecting::tick, `client/netcode/src/lib.rs` lines 69-87: poll the
oneshot; on a received `Ok` response move the handle out
(`self.handle.take().unwrap()`, `panicked` when it is already gone); map
`Empty` to `Ok(None)` and any other receive error to `Err`. -/
def Connecting.tick (c : Connecting) : TickResult × Connecting :=
  match tryRecv c.on_connect with
  | (.ok (.ok response), s) =>
    match c.handle with
    | some _ => (.okSome response, ⟨none, s⟩)
    | none => (.panicked, ⟨none, s⟩)
  | (.ok (.error msg), s) => (.errLogin msg, ⟨c.handle, s⟩)
  | (.empty, s) => (.okNone, ⟨c.handle, s⟩)
  | (.closed, s) => (.errClosed, ⟨c.handle, s⟩)

/-- Iterate `tick`, keeping the state. -/
def Connecting.tickIter (c : Connecting) : Nat → Connecting
  | 0 => c
  | k + 1 => Connecting.tickIter c.tick.2 k

end Voxels.ClientNet

namespace Voxels.Ser

/-- Writer state after the fixed write sequence of
`shared/src/serialization/tests.rs::test_bit_rw_roundtrip` over a 28-byte
buffer, `flush_partials` included. -/
def test_bit_rw_writer : BitWriter :=
  ((((((((((((BitWriter.new 28).uint 0x123 12).bool true).uint 0x4D 7).uint
      0xFFFFFFFF 32).uint 0xAAAA 16).int (-12345678) 28).int 134217727 28).int
      0 28).int (-134217728) 28).uint 0xAB 8).uint 0xCD 8).flush_partials

/-- Bytes the test slices off for reading: the first
`compute_bytes_written` bytes the writer produced. -/
def test_bit_rw_bytes : List Nat :=
  test_bit_rw_writer.out.take test_bit_rw_writer.compute_bytes_written

/-- Read-back of the same sequence, same order and widths, through
`BitReader`. -/
def test_bit_rw_read :
    Nat × Bool × Nat × Nat × Nat × Int × Int × Int × Int × Nat × Nat :=
  let s0 := BitReader.new test_bit_rw_bytes
  let a1 := s0.uint 12
  let a2 := a1.2.bool
  let a3 := a2.2.uint 7
  let a4 := a3.2.uint 32
  let a5 := a4.2.uint 16
  let a6 := a5.2.int 28
  let a7 := a6.2.int 28
  let a8 := a7.2.int 28
  let a9 := a8.2.int 28
  let a10 := a9.2.uint 8
  let a11 := a10.2.uint 8
  (a1.1, a2.1, a3.1, a4.1, a5.1, a6.1, a7.1, a8.1, a9.1, a10.1, a11.1)

/-- Reachability invariant of `BitReader` states: after consuming `c` bits
from a reader created over `buf`, the window `current` holds the next
`bits_left` bits of the infinite stream `buf ++ zeros`, at least 32 and at
most 64 bits are buffered, the total of consumed and buffered bits is a
multiple of 32, and the byte cursor sits at the clamped end of the
buffered region. -/
def ReaderInv (buf : List Nat) (c : Nat) (r : BitReader) : Prop :=
  r.buf = buf ∧
  32 ≤ r.bits_left ∧
  r.bits_left ≤ 64 ∧
  (c + r.bits_left) % 32 = 0 ∧
  r.buf_pos = min buf.length ((c + r.bits_left) / 8) ∧
  r.current = leVal buf / 2 ^ c % 2 ^ r.bits_left

end Voxels.Ser

namespace Voxels

/-- Request payload of the reject scenario: valid header, username "ab". -/
def abRequestPayload : List Nat := [0xC1, 0xB7, 0, 0, 2, 0, 97, 98]

/-- Request payload of the accept scenario: valid header, username
"Alice". -/
def aliceRequestPayload : List Nat := [0xC1, 0xB7, 0, 0, 5, 0, 65, 108, 105, 99, 101]

end Voxels

namespace Voxels

/-- C1: the end-to-end handshake accept scenario fails on the code as
written.  `try_connect` frames its login request with the legacy
`bits_and_bytes` writer (one-byte length header for short messages), so
the wire bytes for username "Alice" are `[11, 193, 183, 0, 0, 5, 0,
65, 108, 105, 99, 101]`; the server's `receive_bytes` reads the first two
bytes as a little-endian u16 length, obtaining `11 + 256 * 193 = 49419`,
and then fails to read that many payload bytes from the 10 that remain.
No login payload ever reaches the server's login handler, so no response
is written and the client cannot decode the claimed fields. -/
theorem C1_handshake_framing_mismatch :
    clientHelloWire aliceBytes
      = [11, 193, 183, 0, 0, 5, 0, 65, 108, 105, 99, 101] ∧
    (clientHelloWire aliceBytes).getD 0 0
        + 256 * (clientHelloWire aliceBytes).getD 1 0 = 49419 ∧
    serverReceiveBytes (clientHelloWire aliceBytes) = none := by
  refine ⟨by decide, by decide, by decide⟩

/-- C2: the two `receive_bytes` implementations are not extensionally
equal.  On the byte stream `[2, 0, 7, 8]` the client's variable-length
framing yields the payload `[0, 7]` (second header byte recycled as the
first payload byte) while the server's fixed 2-byte framing yields
`[7, 8]`. -/
theorem C2_framing_divergence :
    clientReceiveBytes [2, 0, 7, 8] = some [0, 7] ∧
    serverReceiveBytes [2, 0, 7, 8] = some [7, 8] ∧
    clientReceiveBytes [2, 0, 7, 8] ≠ serverReceiveBytes [2, 0, 7, 8] := by
  refine ⟨by decide, by decide, by decide⟩

/-- C3: the main thread answers every identity request with
`NetworkId::from_raw(0)`, which is exactly the reserved invalid value
`NetworkId::INVALID`; in particular any two concurrently accepted
sessions receive the same id. -/
theorem C3_identity_allocation_is_invalid :
    ∀ u : List Nat,
      ServerNet.serverIdentityReply u
        = .accepted NetworkId.INVALID (0, 0, 0) (0, 0) 0 := by
  intro u
  rfl

/-- C8: the fixed mixed-width write sequence of the round-trip test
writes exactly `12 + 1 + 7 + 32 + 16 + 4 * 28 + 8 + 8 = 196` bits, and a
`BitReader` over the produced bytes returns every value exactly, in the
same order and with the same widths. -/
theorem C8_bit_codec_roundtrip :
    Ser.test_bit_rw_writer.bits_written
        = 12 + 1 + 7 + 32 + 16 + 28 + 28 + 28 + 28 + 8 + 8 ∧
    Ser.test_bit_rw_writer.bits_written = 196 ∧
    Ser.test_bit_rw_read
      = (0x123, true, 0x4D, 0xFFFFFFFF, 0xAAAA, -12345678, 134217727, 0,
         -134217728, 0xAB, 0xCD) := by
  refine ⟨by decide, by decide, by rfl⟩

/-- C9 counterexample: on an already-exhausted reader (empty source
buffer) `int(4)` does not return a zero-valued result: decoding the
synthesized zero bits through the offset-binary bias gives
`-2^(4-1) = -8`. -/
theorem C9_counterexample :
    ((Ser.BitReader.new []).int 4).1 = -8 ∧
    ((Ser.BitReader.new []).int 4).1 ≠ 0 := by
  refine ⟨by decide, by decide⟩

/-- C6 counterexample: the `bits_and_bytes` ByteWriter does not backpatch
the length as a little-endian u16.  After `new_for_message` and writing 3
payload bytes (`bytes_written = 5`), its `write_message_len` leaves
`[3, 1]` in the first two bytes of the (slid) buffer, not the little-endian
u16 `[3, 0]` of `5 - 2 = 3`. -/
theorem C6_counterexample :
    ((((BB.ByteWriter.new_for_message (List.replicate 16 0)).write
        [1, 2, 3]).write_message_len).dst.take 2 = [3, 1]) ∧
    ((((BB.ByteWriter.new_for_message (List.replicate 16 0)).write
        [1, 2, 3]).write_message_len).dst.take 2
      ≠ leBytes 2 ((((BB.ByteWriter.new_for_message (List.replicate 16 0)).write
        [1, 2, 3]).bytes_written) % 65536 - 2)) := by
  refine ⟨by decide, by decide⟩

end Voxels

namespace Voxels

/-- Helper: the two-byte little-endian decomposition, unfolded. -/
theorem leBytes_two (v : Nat) : leBytes 2 v = [v % 256, v / 256 % 256] := by
  simp [leBytes, List.range_succ]

/-- C6 (amended): the serialization ByteWriter's `write_message_len`
stores `(bytes_written mod 2^16) - 2` (saturating at 0) as a
little-endian u16 into the first 2 bytes of the buffer, leaving the
cursor and every byte at offset 2 or beyond unchanged.  Quantifying over
the writer state `⟨dst, n⟩` covers every sequence of writes that brings
`bytes_written` to `n` after `new_for_message`. -/
theorem C6_serialization_write_message_len (dst : List Nat) (n : Nat)
    (h2 : 2 ≤ dst.length) :
    ((Ser.ByteWriter.mk dst n).write_message_len).dst.take 2
        = leBytes 2 (n % 65536 - 2) ∧
    (∀ i, 2 ≤ i →
      ((Ser.ByteWriter.mk dst n).write_message_len).dst.getD i 0
        = dst.getD i 0) ∧
    ((Ser.ByteWriter.mk dst n).write_message_len).pos = n := by
  match dst, h2 with
  | x :: y :: rest, _ =>
    refine ⟨?_, ?_, rfl⟩
    · simp [Ser.ByteWriter.write_message_len, leBytes_two, setBytes]
    · intro i hi
      obtain ⟨k, rfl⟩ : ∃ k, i = k + 2 := ⟨i - 2, by omega⟩
      simp [Ser.ByteWriter.write_message_len, leBytes_two, setBytes]

/-- Witness for C6: the amended statement applied to a concrete writer
with 4 buffer bytes and 3 bytes written past the reservation. -/
theorem C6_serialization_write_message_len_witness :
    2 ≤ ([7, 7, 8, 9, 10] : List Nat).length ∧
    (((Ser.ByteWriter.mk [7, 7, 8, 9, 10] 5).write_message_len).dst.take 2
        = leBytes 2 (5 % 65536 - 2) ∧
      (∀ i, 2 ≤ i →
        ((Ser.ByteWriter.mk [7, 7, 8, 9, 10] 5).write_message_len).dst.getD i 0
          = ([7, 7, 8, 9, 10] : List Nat).getD i 0) ∧
      ((Ser.ByteWriter.mk [7, 7, 8, 9, 10] 5).write_message_len).pos = 5) :=
  ⟨by decide, C6_serialization_write_message_len [7, 7, 8, 9, 10] 5 (by decide)⟩

/-- C10: once `Connecting::tick` has returned `Ok(Some(..))` the handle
has been moved out and the oneshot is closed, so every subsequent `tick`
returns the `Err` of a closed channel — never `Ok(None)` again, never a
second connection, and the `handle.take().unwrap()` line runs at most
once (the handle stays `None`). -/
theorem C10_tick_terminal_after_success (c c1 : ClientNet.Connecting)
    (r : ClientNet.LoginResponse)
    (h : c.tick = (ClientNet.TickResult.okSome r, c1)) :
    ∀ k : Nat,
      ((c1.tickIter k).tick).1 = ClientNet.TickResult.errClosed ∧
      (c1.tickIter k).handle = none := by
  have hc1 : c1 = ⟨none, ClientNet.OneshotState.closed⟩ := by
    obtain ⟨handle, oc⟩ := c
    cases oc with
    | pending =>
      exact absurd h (by simp [ClientNet.Connecting.tick, ClientNet.tryRecv])
    | closed =>
      exact absurd h (by simp [ClientNet.Connecting.tick, ClientNet.tryRecv])
    | available v =>
      cases v with
      | error m =>
        exact absurd h (by simp [ClientNet.Connecting.tick, ClientNet.tryRecv])
      | ok resp =>
        cases handle with
        | none =>
          exact absurd h (by simp [ClientNet.Connecting.tick, ClientNet.tryRecv])
        | some u =>
          exact (congrArg Prod.snd h).symm
  have hfix : ∀ m : Nat,
      ClientNet.Connecting.tickIter ⟨none, ClientNet.OneshotState.closed⟩ m
        = ⟨none, ClientNet.OneshotState.closed⟩ := by
    intro m
    induction m with
    | zero => rfl
    | succ m ih => exact ih
  intro k
  rw [hc1, hfix k]
  exact ⟨rfl, rfl⟩

/-- Witness for C10 at a concrete connecting state holding an available
successful response. -/
theorem C10_tick_terminal_after_success_witness :
    ((ClientNet.Connecting.tickIter ⟨none, ClientNet.OneshotState.closed⟩ 3).tick).1
        = ClientNet.TickResult.errClosed ∧
    (ClientNet.Connecting.tickIter ⟨none, ClientNet.OneshotState.closed⟩ 3).handle
        = none :=
  C10_tick_terminal_after_success
    ⟨some (), ClientNet.OneshotState.available (Except.ok ⟨⟨7⟩, (0, 64, 0), (0, 0), 42⟩)⟩
    ⟨none, ClientNet.OneshotState.closed⟩
    ⟨⟨7⟩, (0, 64, 0), (0, 0), 42⟩ rfl 3

end Voxels

namespace Voxels

/-- C5: server-side login validation.  A payload of fewer than 6 bytes is
rejected before any read; with at least 6 bytes, a magic mismatch
(`0xB7C1` is little-endian bytes `193, 183`) or version mismatch closes
the connection with code 1 and no response payload; with a valid header,
a decoded username shorter than 3 bytes closes it with code 2. -/
theorem C5_login_validation :
    (∀ p : List Nat, p.length < 6 →
        ServerNet.login_validate p = some (ServerNet.LoginOutcome.close 1)) ∧
    (∀ b0 b1 b2 b3 b4 b5 : Nat, ∀ rest : List Nat,
        (b0 + 256 * b1 ≠ PROTOCOL_MAGIC ∨ b2 + 256 * b3 ≠ PROTOCOL_VERSION) →
        ServerNet.login_validate (b0 :: b1 :: b2 :: b3 :: b4 :: b5 :: rest)
          = some (ServerNet.LoginOutcome.close 1)) ∧
    (∀ b4 b5 : Nat, ∀ rest : List Nat,
        b4 + 256 * b5 < 3 → b4 + 256 * b5 ≤ rest.length →
        ServerNet.login_validate (193 :: 183 :: 0 :: 0 :: b4 :: b5 :: rest)
          = some (ServerNet.LoginOutcome.close 2)) := by
  refine ⟨?_, ?_, ?_⟩
  · intro p hp
    have hlt : (Ser.ByteReader.new p).bytes_remaining < 6 := by
      simpa [Ser.ByteReader.new, Ser.ByteReader.bytes_remaining] using hp
    simp [ServerNet.login_validate, hlt]
  · intro b0 b1 b2 b3 b4 b5 rest hmv
    by_cases hm : b0 + 256 * b1 = PROTOCOL_MAGIC
    · have hv : b2 + 256 * b3 ≠ PROTOCOL_VERSION := by tauto
      simp [ServerNet.login_validate, Ser.ByteReader.new,
        Ser.ByteReader.bytes_remaining, Ser.ByteReader.read_u16, hm, hv]
    · simp [ServerNet.login_validate, Ser.ByteReader.new,
        Ser.ByteReader.bytes_remaining, Ser.ByteReader.read_u16, hm]
  · intro b4 b5 rest hshort hfit
    have hrem : ¬ (Ser.ByteReader.new
        (193 :: 183 :: 0 :: 0 :: b4 :: b5 :: rest)).bytes_remaining < 6 := by
      simp [Ser.ByteReader.new, Ser.ByteReader.bytes_remaining]
    have h16a : Ser.ByteReader.read_u16
        (Ser.ByteReader.new (193 :: 183 :: 0 :: 0 :: b4 :: b5 :: rest))
        = some (193 + 256 * 183, ⟨193 :: 183 :: 0 :: 0 :: b4 :: b5 :: rest, 2⟩) := rfl
    have h16b : Ser.ByteReader.read_u16
        (⟨193 :: 183 :: 0 :: 0 :: b4 :: b5 :: rest, 2⟩ : Ser.ByteReader)
        = some (0 + 256 * 0, ⟨193 :: 183 :: 0 :: 0 :: b4 :: b5 :: rest, 4⟩) := rfl
    have hcond : (6 : Nat) + (b4 + 256 * b5)
        ≤ (193 :: 183 :: 0 :: 0 :: b4 :: b5 :: rest : List Nat).length := by
      simp only [List.length_cons]
      omega
    have hstr : Ser.ByteReader.read_str
        (⟨193 :: 183 :: 0 :: 0 :: b4 :: b5 :: rest, 4⟩ : Ser.ByteReader)
        = some (rest.take (b4 + 256 * b5),
            ⟨193 :: 183 :: 0 :: 0 :: b4 :: b5 :: rest, 6 + (b4 + 256 * b5)⟩) := by
      have h16c : Ser.ByteReader.read_u16
          (⟨193 :: 183 :: 0 :: 0 :: b4 :: b5 :: rest, 4⟩ : Ser.ByteReader)
          = some (b4 + 256 * b5, ⟨193 :: 183 :: 0 :: 0 :: b4 :: b5 :: rest, 6⟩) := rfl
      simp only [Ser.ByteReader.read_str, h16c]
      rw [if_pos hcond]
      rfl
    have hlen : (rest.take (b4 + 256 * b5)).length < 3 := by
      simp only [List.length_take]
      omega
    rw [ServerNet.login_validate]
    rw [if_neg hrem, h16a]
    norm_num [PROTOCOL_MAGIC, PROTOCOL_VERSION]
    rw [h16b]
    norm_num
    rw [hstr]
    show (if (rest.take (b4 + 256 * b5)).length < 3
        then some (ServerNet.LoginOutcome.close 2)
        else some (ServerNet.LoginOutcome.proceed (rest.take (b4 + 256 * b5))))
      = some (ServerNet.LoginOutcome.close 2)
    rw [if_pos hlen]

/-- Witness for C5: a 3-byte payload, a 6-byte payload with wrong magic,
and the "ab" payload of the reject scenario. -/
theorem C5_login_validation_witness :
    (ServerNet.login_validate [1, 2, 3]
        = some (ServerNet.LoginOutcome.close 1)) ∧
    (ServerNet.login_validate [0, 0, 0, 0, 0, 0]
        = some (ServerNet.LoginOutcome.close 1)) ∧
    (ServerNet.login_validate abRequestPayload
        = some (ServerNet.LoginOutcome.close 2)) :=
  ⟨C5_login_validation.1 [1, 2, 3] (by decide),
   C5_login_validation.2.1 0 0 0 0 0 0 [] (Or.inl (by decide)),
   C5_login_validation.2.2 2 0 [97, 98] (by decide) (by decide)⟩

/-- C4 counterexample: a connection whose handshake succeeds — the
request validates, the main thread accepts with NetworkId 7, and the
response write succeeds — but whose handshake stream `finish()` then
fails, exits without emitting any PlayerJoined or PlayerLeft event: the
early return at `hello_send.finish().await?` sits before
`client_connection` is entered. -/
theorem C4_counterexample :
    ServerNet.login_validate aliceRequestPayload
      = some (ServerNet.LoginOutcome.proceed aliceBytes) ∧
    ((ServerNet.loginTask (some aliceRequestPayload)
        (ServerNet.SLoginResponse.accepted ⟨7⟩ (0, 64, 0) (0, 0) 42)
        true false).1.count (ServerNet.SEvent.playerJoined ⟨7⟩) = 0) ∧
    ((ServerNet.loginTask (some aliceRequestPayload)
        (ServerNet.SLoginResponse.accepted ⟨7⟩ (0, 64, 0) (0, 0) 42)
        true false).1.count (ServerNet.SEvent.playerLeft ⟨7⟩) = 0) := by
  refine ⟨by decide, by decide, by decide⟩

/-- C4 (amended): when the handshake succeeds and the handshake stream's
half-close also succeeds, the task emits exactly one PlayerJoined
followed by exactly one PlayerLeft for the assigned NetworkId (the trace
is exactly request, joined, left); and on every path the PlayerJoined
and PlayerLeft counts agree, so no id is ever left joined on task exit. -/
theorem C4_joined_left_paired (recv : Option (List Nat))
    (reply : ServerNet.SLoginResponse) (writeOk finishOk : Bool) :
    (∀ payload username : List Nat, ∀ nid : NetworkId,
      ∀ pos : Nat × Nat × Nat, ∀ rot : Nat × Nat, ∀ seed : Nat,
        recv = some payload →
        ServerNet.login_validate payload
          = some (ServerNet.LoginOutcome.proceed username) →
        reply = ServerNet.SLoginResponse.accepted nid pos rot seed →
        writeOk = true → finishOk = true →
        (ServerNet.loginTask recv reply writeOk finishOk).1
          = [ServerNet.SEvent.loginRequest username,
             ServerNet.SEvent.playerJoined nid,
             ServerNet.SEvent.playerLeft nid]) ∧
    (∀ nid : NetworkId,
        (ServerNet.loginTask recv reply writeOk finishOk).1.count
            (ServerNet.SEvent.playerJoined nid)
          = (ServerNet.loginTask recv reply writeOk finishOk).1.count
            (ServerNet.SEvent.playerLeft nid)) := by
  constructor
  · intro payload username nid pos rot seed hrecv hval hreply hw hf
    subst hrecv
    subst hreply
    subst hw
    subst hf
    simp [ServerNet.loginTask, hval]
  · intro nid
    cases recv with
    | none => rfl
    | some payload =>
      rw [ServerNet.loginTask]
      cases hval : ServerNet.login_validate payload with
      | none => rfl
      | some out =>
        cases out with
        | close c => rfl
        | proceed username =>
          cases reply with
          | denied reason => simp [List.count_cons]
          | accepted nid2 pos rot seed =>
            cases writeOk with
            | false => simp [List.count_cons]
            | true =>
              cases finishOk with
              | false => simp [List.count_cons]
              | true =>
                simp only [Bool.not_true, List.count_cons, List.count_nil]
                by_cases hn : nid2 = nid
                · subst hn
                  simp
                · simp [List.count_cons, List.count_nil, hn]

/-- Witness for C4 at the accept-scenario inputs with both stream
operations succeeding. -/
theorem C4_joined_left_paired_witness :
    (ServerNet.loginTask (some aliceRequestPayload)
        (ServerNet.SLoginResponse.accepted ⟨7⟩ (0, 64, 0) (0, 0) 42)
        true true).1
      = [ServerNet.SEvent.loginRequest aliceBytes,
         ServerNet.SEvent.playerJoined ⟨7⟩,
         ServerNet.SEvent.playerLeft ⟨7⟩] :=
  (C4_joined_left_paired (some aliceRequestPayload)
      (ServerNet.SLoginResponse.accepted ⟨7⟩ (0, 64, 0) (0, 0) 42)
      true true).1
    aliceRequestPayload aliceBytes ⟨7⟩ (0, 64, 0) (0, 0) 42
    rfl (by decide) rfl rfl rfl

end Voxels

namespace Voxels

/-- Helper: masking with 127 is reduction mod 128. -/
theorem and_mod_128 (a : Nat) : a &&& 127 = a % 128 := by
  have h := Nat.and_pow_two_sub_one_eq_mod a 7
  norm_num at h
  exact h

/-- Helper: masking a 16-bit value with `!127` (as u16) keeps exactly the
bits from 7 upward. -/
theorem and_65408_eq (v : Nat) (hv : v < 65536) : v &&& 65408 = 128 * (v / 128) := by
  have h65408 : (65408 : Nat) = (2 ^ 9 - 1) <<< 7 := by
    norm_num [Nat.shiftLeft_eq]
  have hrhs : 128 * (v / 128) = (v >>> 7) <<< 7 := by
    rw [Nat.shiftLeft_eq, Nat.shiftRight_eq_div_pow]
    norm_num
    ring
  rw [h65408, hrhs]
  apply Nat.eq_of_testBit_eq
  intro i
  simp only [Nat.testBit_and, Nat.testBit_shiftLeft, Nat.testBit_shiftRight,
    Nat.testBit_two_pow_sub_one]
  by_cases h7 : 7 ≤ i
  · by_cases h16 : i < 16
    · have h9 : i - 7 < 9 := by omega
      have hi : 7 + (i - 7) = i := by omega
      simp [h7, h9, hi]
    · have hvi : v.testBit i = false := by
        apply Nat.testBit_lt_two_pow
        calc v < 65536 := hv
        _ = 2 ^ 16 := by norm_num
        _ ≤ 2 ^ i := Nat.pow_le_pow_right (by norm_num) (by omega)
      have hi : 7 + (i - 7) = i := by omega
      simp [hvi, hi]
  · simp [h7]

/-- Helper: a byte of the form `r + 128` with `r < 128` has bit 7 set. -/
theorem and_128_of_high (r : Nat) (hr : r < 128) : (r + 128) &&& 128 = 128 := by
  have h : (128 : Nat) = 2 ^ 7 := by norm_num
  have hd : (r + 128) / 2 ^ 7 = 1 := by
    norm_num
    omega
  have ht : (r + 128).testBit 7 = true := by
    rw [Nat.testBit_to_div_mod, hd]
    decide
  rw [h, Nat.and_two_pow]
  simp [ht]

/-- Helper: a byte below 128 has bit 7 clear. -/
theorem and_128_of_low (v : Nat) (hv : v < 128) : v &&& 128 = 0 := by
  have h : (128 : Nat) = 2 ^ 7 := by norm_num
  have ht : v.testBit 7 = false := by
    apply Nat.testBit_lt_two_pow
    omega
  rw [h, Nat.and_two_pow, ht]
  simp

/-- Helper: writing one u16 into a fresh 2-byte buffer yields its two
little-endian bytes. -/
theorem BB_write_u16_fresh (x : Nat) :
    ((BB.ByteWriter.new [0, 0]).write_u16 x).bytes = [x % 256, x / 256 % 256] := by
  simp [BB.ByteWriter.new, BB.ByteWriter.write_u16, BB.ByteWriter.write,
    BB.ByteWriter.bytes, leBytes, setBytes, List.range_succ]

/-- Helper: writing one u8 into a fresh 2-byte buffer yields that byte. -/
theorem BB_write_u8_fresh (x : Nat) :
    ((BB.ByteWriter.new [0, 0]).write_u8 x).bytes = [x % 256] := by
  simp [BB.ByteWriter.new, BB.ByteWriter.write_u8, BB.ByteWriter.write,
    BB.ByteWriter.bytes, leBytes, setBytes, List.range_succ]

/-- Helper: bytes produced by `write_varint15` on a fresh buffer, value
below 128. -/
theorem write_varint15_bytes_low (v : Nat) (h : v < 128) :
    ((BB.ByteWriter.new [0, 0]).write_varint15 v).bytes = [v] := by
  have hx : v % 65536 = v := Nat.mod_eq_of_lt (by omega)
  simp only [BB.ByteWriter.write_varint15, hx, if_pos h]
  rw [BB_write_u8_fresh, and_mod_128]
  congr 1
  omega

/-- Helper: bytes produced by `write_varint15` on a fresh buffer, value
`128 * q + r` at least 128, with `q < 256`, `r < 128`. -/
theorem write_varint15_bytes_high (q r : Nat) (hq : q < 256) (hr : r < 128)
    (hge : 128 ≤ 128 * q + r) :
    ((BB.ByteWriter.new [0, 0]).write_varint15 (128 * q + r)).bytes
      = [r + 128, q] := by
  have hv65536 : 128 * q + r < 65536 := by omega
  have hx : (128 * q + r) % 65536 = 128 * q + r := Nat.mod_eq_of_lt hv65536
  have hnot : ¬ (128 * q + r) < 128 := by omega
  have hdiv : (128 * q + r) / 128 = q := by omega
  have hmod : (128 * q + r) % 128 = r := by omega
  have ha : 128 * q + r &&& 127 = r := by rw [and_mod_128, hmod]
  have hb : (128 * q + r) &&& 65408 = 128 * q := by
    rw [and_65408_eq _ hv65536, hdiv]
  have hXval : (128 * q + r &&& 127) ||| ((128 * q + r &&& 65408) <<< 1 % 65536) ||| 128
      = 256 * q + (r + 128) := by
    rw [ha, hb, Nat.shiftLeft_eq]
    have h1 : 128 * q * 2 ^ 1 % 65536 = 256 * q := by
      have : 128 * q * 2 ^ 1 = 256 * q := by ring
      rw [this]
      exact Nat.mod_eq_of_lt (by omega)
    rw [h1]
    have hstep1 : r ||| 256 * q = 256 * q + r := by
      have h256 : (256 : Nat) * q = 2 ^ 8 * q := by norm_num
      rw [h256, Nat.lor_comm]
      exact (Nat.mul_add_lt_is_or (by omega) q).symm
    have hstep2 : r ||| (128 : Nat) = r + 128 := by
      have h1 : (2 : Nat) ^ 7 * 1 + r = 2 ^ 7 * 1 ||| r := Nat.mul_add_lt_is_or hr 1
      have h2 : (2 : Nat) ^ 7 * 1 = 128 := by norm_num
      rw [h2] at h1
      rw [Nat.lor_comm]
      omega
    calc (r ||| 256 * q) ||| 128
        = r ||| (256 * q ||| 128) := Nat.lor_assoc r (256 * q) 128
      _ = r ||| (128 ||| 256 * q) := by rw [Nat.lor_comm (256 * q) 128]
      _ = (r ||| 128) ||| 256 * q := (Nat.lor_assoc r 128 (256 * q)).symm
      _ = (256 * q) ||| (r + 128) := by rw [hstep2, Nat.lor_comm]
      _ = 2 ^ 8 * q ||| (r + 128) := by norm_num
      _ = 2 ^ 8 * q + (r + 128) := (Nat.mul_add_lt_is_or (by omega) q).symm
      _ = 256 * q + (r + 128) := by norm_num
  simp only [BB.ByteWriter.write_varint15, hx, if_neg hnot]
  rw [hXval, BB_write_u16_fresh]
  have hm1 : (256 * q + (r + 128)) % 256 = r + 128 := by omega
  have hm2 : (256 * q + (r + 128)) / 256 % 256 = q := by omega
  rw [hm1, hm2]

end Voxels

namespace Voxels

/-- Helper: `read_varint15` on a single byte with bit 7 clear. -/
theorem read_varint15_one (b0 : Nat) (hb : b0 &&& 128 = 0) :
    (Ser.ByteReader.new [b0]).read_varint15 = some (b0, ⟨[b0], 1⟩) := by
  simp [Ser.ByteReader.new, Ser.ByteReader.read_varint15, Ser.ByteReader.read_u8, hb]

/-- Helper: `read_varint15` on two bytes whose first has bit 7 set. -/
theorem read_varint15_two (b0 b1 : Nat) (hb : b0 &&& 128 ≠ 0) :
    (Ser.ByteReader.new [b0, b1]).read_varint15
      = some ((b0 &&& 127) ||| (b1 <<< 7), ⟨[b0, b1], 2⟩) := by
  simp [Ser.ByteReader.new, Ser.ByteReader.read_varint15, Ser.ByteReader.read_u8, hb]

/-- C7: varint15 round-trip.  For every `v < 32768`, `read_varint15`
applied to the bytes produced by `write_varint15 v` returns `v` with the
reader positioned at the end of the encoding, and the encoding occupies
exactly 1 byte when `v < 128` and exactly 2 bytes otherwise, so the
reader can determine the consumed length from the first byte alone. -/
theorem C7_varint15_roundtrip (v : Nat) (h : v < 32768) :
    (((Ser.ByteReader.new
        (((BB.ByteWriter.new [0, 0]).write_varint15 v).bytes)).read_varint15).map
        (fun p => (p.1, p.2.pos))
      = some (v, (((BB.ByteWriter.new [0, 0]).write_varint15 v).bytes).length)) ∧
    ((((BB.ByteWriter.new [0, 0]).write_varint15 v).bytes).length
      = if v < 128 then 1 else 2) := by
  by_cases hlow : v < 128
  · rw [write_varint15_bytes_low v hlow]
    rw [read_varint15_one v (and_128_of_low v hlow)]
    simp [hlow]
  · have hsplit : 128 * (v / 128) + v % 128 = v := Nat.div_add_mod v 128
    have hq : v / 128 < 256 := by omega
    have hr : v % 128 < 128 := by omega
    have hge : 128 ≤ 128 * (v / 128) + v % 128 := by omega
    have hbytes := write_varint15_bytes_high (v / 128) (v % 128) hq hr hge
    rw [hsplit] at hbytes
    rw [hbytes]
    rw [read_varint15_two _ _ (by rw [and_128_of_high _ hr]; omega)]
    have hval : ((v % 128 + 128) &&& 127) ||| ((v / 128) <<< 7) = v := by
      rw [and_mod_128, Nat.shiftLeft_eq]
      have h1 : (v % 128 + 128) % 128 = v % 128 := by omega
      rw [h1]
      have h2 : (v / 128) * 2 ^ 7 = 2 ^ 7 * (v / 128) := by ring
      rw [h2, Nat.lor_comm]
      rw [← Nat.mul_add_lt_is_or hr (v / 128)]
      have h3 : (2 : Nat) ^ 7 = 128 := by norm_num
      rw [h3]
      omega
    rw [hval]
    simp [hlow]

/-- Witness for C7 at `v = 1000` (two-byte form). -/
theorem C7_varint15_roundtrip_witness :
    (((Ser.ByteReader.new
        (((BB.ByteWriter.new [0, 0]).write_varint15 1000).bytes)).read_varint15).map
        (fun p => (p.1, p.2.pos))
      = some (1000, (((BB.ByteWriter.new [0, 0]).write_varint15 1000).bytes).length)) ∧
    ((((BB.ByteWriter.new [0, 0]).write_varint15 1000).bytes).length
      = if 1000 < 128 then 1 else 2) :=
  C7_varint15_roundtrip 1000 (by decide)

end Voxels

namespace Voxels

/-- Helper: little-endian value of a concatenation. -/
theorem leVal_append (a b : List Nat) :
    leVal (a ++ b) = leVal a + 256 ^ a.length * leVal b := by
  induction a with
  | nil => simp [leVal]
  | cons x t ih =>
    show x + 256 * leVal (t ++ b) = x + 256 * leVal t + 256 ^ (t.length + 1) * leVal b
    rw [ih, pow_succ]
    ring

/-- Helper: a list of bytes has value below `256 ^ length`. -/
theorem leVal_lt (l : List Nat) (h : ∀ b ∈ l, b < 256) :
    leVal l < 256 ^ l.length := by
  induction l with
  | nil => simp [leVal]
  | cons x t ih =>
    have hx : x < 256 := h x (by simp)
    have ht := ih (fun b hb => h b (by simp [hb]))
    simp only [leVal, List.length_cons]
    calc x + 256 * leVal t < 256 * (leVal t + 1) := by omega
      _ ≤ 256 * 256 ^ t.length := Nat.mul_le_mul_left 256 ht
      _ = 256 ^ (t.length + 1) := by rw [pow_succ]; ring

/-- Helper: `256 ^ n` in base 2. -/
theorem pow256_eq (n : Nat) : (256 : Nat) ^ n = 2 ^ (8 * n) := by
  rw [show (256 : Nat) = 2 ^ 8 by norm_num, ← pow_mul]

/-- Helper: trailing zero bytes do not change the value. -/
theorem leVal_append_zeros (l : List Nat) (k : Nat) :
    leVal (l ++ List.replicate k 0) = leVal l := by
  rw [leVal_append]
  have hz : leVal (List.replicate k 0) = 0 := by
    induction k with
    | zero => rfl
    | succ k ih => simp [List.replicate_succ, leVal, ih]
  simp [hz]

/-- Helper: taking a byte prefix is reduction mod a power of two. -/
theorem leVal_take (l : List Nat) (k : Nat) (h : ∀ b ∈ l, b < 256) :
    leVal (l.take k) = leVal l % 2 ^ (8 * k) := by
  by_cases hk : k ≤ l.length
  · have hsplit : l.take k ++ l.drop k = l := List.take_append_drop k l
    have hlen : (l.take k).length = k := by
      rw [List.length_take]
      omega
    have hlt : leVal (l.take k) < 2 ^ (8 * k) := by
      have := leVal_lt (l.take k) (fun b hb => h b (List.mem_of_mem_take hb))
      rwa [hlen, pow256_eq] at this
    conv_rhs => rw [← hsplit]
    rw [leVal_append, hlen, pow256_eq]
    rw [Nat.add_mul_mod_self_left]
    exact (Nat.mod_eq_of_lt hlt).symm
  · have htake : l.take k = l := List.take_of_length_le (by omega)
    rw [htake]
    have hlt : leVal l < 2 ^ (8 * k) := by
      have := leVal_lt l h
      rw [pow256_eq] at this
      calc leVal l < 2 ^ (8 * l.length) := this
        _ ≤ 2 ^ (8 * k) := Nat.pow_le_pow_right (by norm_num) (by omega)
    exact (Nat.mod_eq_of_lt hlt).symm

/-- Helper: dropping a byte prefix is division by a power of two. -/
theorem leVal_drop (l : List Nat) (k : Nat) (h : ∀ b ∈ l, b < 256) :
    leVal (l.drop k) = leVal l / 2 ^ (8 * k) := by
  by_cases hk : k ≤ l.length
  · have hsplit : l.take k ++ l.drop k = l := List.take_append_drop k l
    have hlen : (l.take k).length = k := by
      rw [List.length_take]
      omega
    have hlt : leVal (l.take k) < 2 ^ (8 * k) := by
      have := leVal_lt (l.take k) (fun b hb => h b (List.mem_of_mem_take hb))
      rwa [hlen, pow256_eq] at this
    conv_rhs => rw [← hsplit]
    rw [leVal_append, hlen, pow256_eq]
    rw [Nat.add_mul_div_left _ _ (Nat.pos_pow_of_pos _ (by norm_num))]
    rw [Nat.div_eq_of_lt hlt]
    omega
  · have hdrop : l.drop k = [] := List.drop_eq_nil_of_le (by omega)
    rw [hdrop]
    have hlt : leVal l < 2 ^ (8 * k) := by
      have := leVal_lt l h
      rw [pow256_eq] at this
      calc leVal l < 2 ^ (8 * l.length) := this
        _ ≤ 2 ^ (8 * k) := Nat.pow_le_pow_right (by norm_num) (by omega)
    simp [leVal, Nat.div_eq_of_lt hlt]

/-- Helper: `(x mod 2^b) / 2^n = (x / 2^n) mod 2^(b-n)` for `n ≤ b`. -/
theorem mod_pow_div (x b n : Nat) (h : n ≤ b) :
    (x % 2 ^ b) / 2 ^ n = x / 2 ^ n % 2 ^ (b - n) := by
  have hsplit : x = 2 ^ b * (x / 2 ^ b) + x % 2 ^ b := (Nat.div_add_mod x (2 ^ b)).symm
  have hpow : 2 ^ b = 2 ^ n * 2 ^ (b - n) := by
    rw [← pow_add]
    congr 1
    omega
  have hm : x % 2 ^ b < 2 ^ b := Nat.mod_lt x (Nat.pos_pow_of_pos _ (by norm_num))
  have hdivlt : (x % 2 ^ b) / 2 ^ n < 2 ^ (b - n) := by
    rw [Nat.div_lt_iff_lt_mul (Nat.pos_pow_of_pos n (by norm_num))]
    calc x % 2 ^ b < 2 ^ b := hm
      _ = 2 ^ (b - n) * 2 ^ n := by rw [← pow_add]; congr 1; omega
  conv_rhs => rw [hsplit]
  rw [hpow]
  have : 2 ^ n * 2 ^ (b - n) * (x / (2 ^ n * 2 ^ (b - n))) + x % (2 ^ n * 2 ^ (b - n))
      = x % (2 ^ n * 2 ^ (b - n)) + 2 ^ n * (2 ^ (b - n) * (x / (2 ^ n * 2 ^ (b - n)))) := by
    ring
  rw [this]
  rw [Nat.add_mul_div_left _ _ (Nat.pos_pow_of_pos n (by norm_num))]
  rw [Nat.add_mul_mod_self_left]
  rw [hpow] at hdivlt
  exact (Nat.mod_eq_of_lt hdivlt).symm

end Voxels

namespace Voxels

/-- Helper: one `BitReader::read` call returns the 32-bit little-endian
word at the byte cursor (zero bits past the end) and advances the cursor
by at most 4 clamped bytes. -/
theorem BitReader_read_spec (r : Ser.BitReader)
    (hbuf : ∀ b ∈ r.buf, b < 256) (hp : r.buf_pos ≤ r.buf.length) :
    (r.read).1 = leVal r.buf / 2 ^ (8 * r.buf_pos) % 2 ^ 32 ∧
    (r.read).2 = { r with buf_pos := min r.buf.length (r.buf_pos + 4) } := by
  constructor
  · show leVal ((r.buf.drop r.buf_pos).take (min 4 (r.buf.length - r.buf_pos))
        ++ List.replicate (4 - min 4 (r.buf.length - r.buf_pos)) 0) = _
    rw [leVal_append_zeros]
    have hdl : (r.buf.drop r.buf_pos).length = r.buf.length - r.buf_pos :=
      List.length_drop _ _
    have hdb : ∀ b ∈ r.buf.drop r.buf_pos, b < 256 :=
      fun b hb => hbuf b (List.mem_of_mem_drop hb)
    have htake : (r.buf.drop r.buf_pos).take (min 4 (r.buf.length - r.buf_pos))
        = (r.buf.drop r.buf_pos).take 4 := by
      by_cases h4 : 4 ≤ r.buf.length - r.buf_pos
      · rw [Nat.min_eq_left h4]
      · rw [Nat.min_eq_right (by omega)]
        rw [List.take_of_length_le (by omega), List.take_of_length_le (by omega)]
    rw [htake, leVal_take _ _ hdb, leVal_drop _ _ hbuf]
  · show ({ r with buf_pos := r.buf_pos + min 4 (r.buf.length - r.buf_pos) }
        : Ser.BitReader) = _
    congr 1
    omega

/-- Helper: the reader invariant holds right after `BitReader::new`. -/
theorem ReaderInv_new (buf : List Nat) (hbuf : ∀ b ∈ buf, b < 256) :
    Ser.ReaderInv buf 0 (Ser.BitReader.new buf) := by
  have hN := leVal_lt buf hbuf
  rw [pow256_eq] at hN
  obtain ⟨hw1, hr1⟩ := BitReader_read_spec ⟨0, 64, 0, buf⟩ hbuf (by simp)
  simp only at hw1 hr1
  have hp1 : min buf.length (0 + 4) ≤ buf.length := by omega
  obtain ⟨hw2, hr2⟩ :=
    BitReader_read_spec ⟨0, 64, min buf.length (0 + 4), buf⟩ (by simpa using hbuf) hp1
  simp only at hw2 hr2
  have hw2v : ((⟨0, 64, min buf.length (0 + 4), buf⟩ : Ser.BitReader).read).1
      = leVal buf / 2 ^ 32 % 2 ^ 32 := by
    rw [hw2]
    by_cases h4 : 4 ≤ buf.length
    · rw [Nat.min_eq_right (by omega)]
    · rw [Nat.min_eq_left (by omega)]
      have hz1 : leVal buf / 2 ^ (8 * buf.length) = 0 := Nat.div_eq_of_lt hN
      have hz2 : leVal buf / 2 ^ 32 = 0 := by
        apply Nat.div_eq_of_lt
        calc leVal buf < 2 ^ (8 * buf.length) := hN
          _ ≤ 2 ^ 32 := Nat.pow_le_pow_right (by norm_num) (by omega)
      rw [hz1, hz2]
  have hnewstate : Ser.BitReader.new buf
      = ⟨((leVal buf / 2 ^ (8 * 0) % 2 ^ 32)
            ||| ((leVal buf / 2 ^ 32 % 2 ^ 32) <<< 32 % 2 ^ 64)) % 2 ^ 64, 64,
         min buf.length (min buf.length (0 + 4) + 4), buf⟩ := by
    show ({ ((⟨0, 64, 0, buf⟩ : Ser.BitReader).read).2.read.2 with
        current := (((⟨0, 64, 0, buf⟩ : Ser.BitReader).read).1
          ||| ((((⟨0, 64, 0, buf⟩ : Ser.BitReader).read).2.read).1 <<< 32 % 2 ^ 64)) % 2 ^ 64 }
        : Ser.BitReader) = _
    rw [hr1]
    rw [hw1, hr2, hw2v]
  have hcurrent : ((leVal buf / 2 ^ (8 * 0) % 2 ^ 32)
        ||| ((leVal buf / 2 ^ 32 % 2 ^ 32) <<< 32 % 2 ^ 64)) % 2 ^ 64
      = leVal buf / 2 ^ 0 % 2 ^ 64 := by
    have e0 : leVal buf / 2 ^ (8 * 0) = leVal buf := by norm_num
    rw [e0]
    have hshift : (leVal buf / 2 ^ 32 % 2 ^ 32) <<< 32 % 2 ^ 64
        = 2 ^ 32 * (leVal buf / 2 ^ 32 % 2 ^ 32) := by
      rw [Nat.shiftLeft_eq]
      have hlt : leVal buf / 2 ^ 32 % 2 ^ 32 < 2 ^ 32 :=
        Nat.mod_lt _ (by norm_num)
      rw [Nat.mod_eq_of_lt (by nlinarith [hlt])]
      ring
    rw [hshift]
    have hor : leVal buf % 2 ^ 32 ||| 2 ^ 32 * (leVal buf / 2 ^ 32 % 2 ^ 32)
        = leVal buf % 2 ^ 32 + 2 ^ 32 * (leVal buf / 2 ^ 32 % 2 ^ 32) := by
      rw [Nat.lor_comm]
      rw [← Nat.mul_add_lt_is_or (Nat.mod_lt _ (by norm_num))
        (leVal buf / 2 ^ 32 % 2 ^ 32)]
      omega
    rw [hor]
    have hmm : leVal buf % 2 ^ 32 + 2 ^ 32 * (leVal buf / 2 ^ 32 % 2 ^ 32)
        = leVal buf % 2 ^ 64 := by
      have := Nat.mod_mul (x := leVal buf) (a := 2 ^ 32) (b := 2 ^ 32)
      rw [show (2 : Nat) ^ 32 * 2 ^ 32 = 2 ^ 64 by norm_num] at this
      omega
    rw [hmm]
    have h64 : leVal buf % 2 ^ 64 < 2 ^ 64 := Nat.mod_lt _ (by norm_num)
    simp [Nat.mod_eq_of_lt h64]
  rw [hnewstate]
  refine ⟨rfl, by norm_num, by norm_num, by norm_num, ?_, hcurrent⟩
  show min buf.length (min buf.length (0 + 4) + 4) = min buf.length ((0 + 64) / 8)
  omega

end Voxels

namespace Voxels

/-- Helper: one `uint` read preserves the reader invariant, consuming
`n ≤ 32` bits. -/
theorem ReaderInv_step (buf : List Nat) (c : Nat) (r : Ser.BitReader) (n : Nat)
    (hbuf : ∀ b ∈ buf, b < 256) (hn : n ≤ 32) (hinv : Ser.ReaderInv buf c r) :
    Ser.ReaderInv buf (c + n) (r.uint n).2 := by
  obtain ⟨hb, hbl32, hbl64, hmod32, hpos, hcur⟩ := hinv
  have hN := leVal_lt buf hbuf
  rw [pow256_eq] at hN
  have hcur1 : r.current >>> n = leVal buf / 2 ^ (c + n) % 2 ^ (r.bits_left - n) := by
    rw [Nat.shiftRight_eq_div_pow, hcur, mod_pow_div _ _ _ (by omega)]
    rw [Nat.div_div_eq_div_mul, ← pow_add]
  by_cases hrefill : r.bits_left - n < 32
  · -- refill branch
    have hple : r.buf_pos ≤ r.buf.length := by
      rw [hb, hpos]
      omega
    have hbufr : ∀ b ∈ (⟨r.current >>> n, r.bits_left - n, r.buf_pos, r.buf⟩ :
        Ser.BitReader).buf, b < 256 := by
      simpa [hb] using hbuf
    obtain ⟨hw, hr⟩ := BitReader_read_spec
      ⟨r.current >>> n, r.bits_left - n, r.buf_pos, r.buf⟩ hbufr (by simpa using hple)
    simp only at hw hr
    have huint2 : (r.uint n).2
        = ⟨((r.current >>> n) |||
             (((leVal r.buf / 2 ^ (8 * r.buf_pos) % 2 ^ 32) <<< (r.bits_left - n)) % 2 ^ 64)) % 2 ^ 64,
           r.bits_left - n + 32,
           min r.buf.length (r.buf_pos + 4), r.buf⟩ := by
      simp only [Ser.BitReader.uint]
      rw [if_pos hrefill]
      rw [hr, hw]
    rw [huint2]
    have hWeq : leVal r.buf / 2 ^ (8 * r.buf_pos) % 2 ^ 32
        = leVal buf / 2 ^ (c + r.bits_left) % 2 ^ 32 := by
      rw [hb]
      by_cases hclamp : (c + r.bits_left) / 8 ≤ buf.length
      · have hpp : r.buf_pos = (c + r.bits_left) / 8 := by
          rw [hpos]
          omega
        have h8 : 8 * ((c + r.bits_left) / 8) = c + r.bits_left := by omega
        rw [hpp, h8]
      · have hpp : r.buf_pos = buf.length := by
          rw [hpos]
          omega
        have hz1 : leVal buf / 2 ^ (8 * buf.length) = 0 := Nat.div_eq_of_lt hN
        have hz2 : leVal buf / 2 ^ (c + r.bits_left) = 0 := by
          apply Nat.div_eq_of_lt
          calc leVal buf < 2 ^ (8 * buf.length) := hN
            _ ≤ 2 ^ (c + r.bits_left) :=
              Nat.pow_le_pow_right (by norm_num) (by omega)
        rw [hpp, hz1, hz2]
    have hWx : leVal buf / 2 ^ (c + r.bits_left) % 2 ^ 32
        = (leVal buf / 2 ^ (c + n)) / 2 ^ (r.bits_left - n) % 2 ^ 32 := by
      rw [Nat.div_div_eq_div_mul, ← pow_add]
      have heq : c + n + (r.bits_left - n) = c + r.bits_left := by omega
      rw [heq]
    refine ⟨hb, ?_, ?_, ?_, ?_, ?_⟩
    · show 32 ≤ r.bits_left - n + 32
      omega
    · show r.bits_left - n + 32 ≤ 64
      omega
    · show (c + n + (r.bits_left - n + 32)) % 32 = 0
      omega
    · show min r.buf.length (r.buf_pos + 4)
        = min buf.length ((c + n + (r.bits_left - n + 32)) / 8)
      rw [hb, hpos]
      omega
    · show ((r.current >>> n) |||
           (((leVal r.buf / 2 ^ (8 * r.buf_pos) % 2 ^ 32) <<< (r.bits_left - n)) % 2 ^ 64)) % 2 ^ 64
        = leVal buf / 2 ^ (c + n) % 2 ^ (r.bits_left - n + 32)
      rw [hWeq, hWx, hcur1]
      have hWlt : (leVal buf / 2 ^ (c + n)) / 2 ^ (r.bits_left - n) % 2 ^ 32 < 2 ^ 32 :=
        Nat.mod_lt _ (by norm_num)
      have hshift : ((leVal buf / 2 ^ (c + n)) / 2 ^ (r.bits_left - n) % 2 ^ 32)
            <<< (r.bits_left - n) % 2 ^ 64
          = 2 ^ (r.bits_left - n)
            * ((leVal buf / 2 ^ (c + n)) / 2 ^ (r.bits_left - n) % 2 ^ 32) := by
        rw [Nat.shiftLeft_eq]
        rw [Nat.mod_eq_of_lt]
        · ring
        · calc _ < 2 ^ 32 * 2 ^ (r.bits_left - n) :=
              Nat.mul_lt_mul_of_lt_of_le hWlt (le_refl _) (Nat.pos_pow_of_pos _ (by norm_num))
            _ ≤ 2 ^ 32 * 2 ^ 32 :=
              Nat.mul_le_mul_left _ (Nat.pow_le_pow_right (by norm_num) (by omega))
            _ = 2 ^ 64 := by norm_num
      rw [hshift]
      have hc1lt : leVal buf / 2 ^ (c + n) % 2 ^ (r.bits_left - n)
          < 2 ^ (r.bits_left - n) := Nat.mod_lt _ (Nat.pos_pow_of_pos _ (by norm_num))
      rw [Nat.lor_comm]
      rw [← Nat.mul_add_lt_is_or hc1lt _]
      have hmm : 2 ^ (r.bits_left - n)
            * ((leVal buf / 2 ^ (c + n)) / 2 ^ (r.bits_left - n) % 2 ^ 32)
            + leVal buf / 2 ^ (c + n) % 2 ^ (r.bits_left - n)
          = leVal buf / 2 ^ (c + n) % 2 ^ (r.bits_left - n + 32) := by
        have := Nat.mod_mul (x := leVal buf / 2 ^ (c + n))
          (a := 2 ^ (r.bits_left - n)) (b := 2 ^ 32)
        rw [← pow_add] at this
        omega
      rw [hmm]
      exact Nat.mod_eq_of_lt
        (lt_of_lt_of_le (Nat.mod_lt _ (Nat.pos_pow_of_pos _ (by norm_num)))
          (Nat.pow_le_pow_right (by norm_num) (by omega)))
  · -- no refill
    have huint2 : (r.uint n).2
        = ⟨r.current >>> n, r.bits_left - n, r.buf_pos, r.buf⟩ := by
      simp only [Ser.BitReader.uint]
      rw [if_neg hrefill]
    rw [huint2]
    refine ⟨hb, ?_, ?_, ?_, ?_, ?_⟩
    · show 32 ≤ r.bits_left - n
      omega
    · show r.bits_left - n ≤ 64
      omega
    · show (c + n + (r.bits_left - n)) % 32 = 0
      omega
    · show r.buf_pos = min buf.length ((c + n + (r.bits_left - n)) / 8)
      rw [hpos]
      have heq : c + n + (r.bits_left - n) = c + r.bits_left := by omega
      rw [heq]
    · exact hcur1

end Voxels

namespace Voxels

/-- Helper: the invariant is preserved by any sequence of reads whose
widths are at most 32, accumulating the consumed bit count. -/
theorem ReaderInv_runReads (buf : List Nat) (hbuf : ∀ b ∈ buf, b < 256)
    (ws : List Nat) :
    ∀ c : Nat, ∀ r : Ser.BitReader, (∀ w ∈ ws, w ≤ 32) →
      Ser.ReaderInv buf c r → Ser.ReaderInv buf (c + ws.sum) (r.runReads ws) := by
  induction ws with
  | nil =>
    intro c r _ hinv
    simpa using hinv
  | cons n rest ih =>
    intro c r hws hinv
    have hstep := ReaderInv_step buf c r n hbuf (hws n (by simp)) hinv
    have htail := ih (c + n) (r.uint n).2 (fun w hw => hws w (by simp [hw])) hstep
    show Ser.ReaderInv buf (c + (n :: rest).sum) (Ser.BitReader.runReads (r.uint n).2 rest)
    have hsum : c + (n :: rest).sum = c + n + rest.sum := by
      simp [List.sum_cons]
      omega
    rw [hsum]
    exact htail

/-- C9 (amended): `uint`, `int` and `bool` are total and never error; for
every source buffer and every sequence of reads, once at least
`8 * buf.length` bits have been consumed the window holds only
synthesized zero bits, so every further `uint n` returns 0 and `bool`
returns false, while `int n` returns the decode of those zero bits,
namely `-2^(n-1)` — a fixed nonzero value rather than zero. -/
theorem C9_exhausted_reads (buf ws : List Nat) (n : Nat)
    (hbuf : ∀ b ∈ buf, b < 256) (hws : ∀ w ∈ ws, w ≤ 32)
    (hex : 8 * buf.length ≤ ws.sum) (hn1 : 1 ≤ n) (hn : n ≤ 32) :
    ((((Ser.BitReader.new buf).runReads ws).uint n).1 = 0) ∧
    ((((Ser.BitReader.new buf).runReads ws).bool).1 = false) ∧
    ((((Ser.BitReader.new buf).runReads ws).int n).1 = -(2 ^ (n - 1) : Int)) := by
  have hinv := ReaderInv_runReads buf hbuf ws 0 (Ser.BitReader.new buf)
    hws (ReaderInv_new buf hbuf)
  obtain ⟨hb, hbl32, hbl64, hmod32, hpos, hcur⟩ := hinv
  have hN := leVal_lt buf hbuf
  rw [pow256_eq] at hN
  have hzero : ((Ser.BitReader.new buf).runReads ws).current = 0 := by
    rw [hcur]
    have : leVal buf / 2 ^ (0 + ws.sum) = 0 := by
      apply Nat.div_eq_of_lt
      calc leVal buf < 2 ^ (8 * buf.length) := hN
        _ ≤ 2 ^ (0 + ws.sum) := Nat.pow_le_pow_right (by norm_num) (by omega)
    rw [this]
    simp
  have huint : ∀ m : Nat, (((Ser.BitReader.new buf).runReads ws).uint m).1 = 0 := by
    intro m
    simp only [Ser.BitReader.uint]
    rw [hzero]
    by_cases hc : ((Ser.BitReader.new buf).runReads ws).bits_left - m < 32
    · rw [if_pos hc]
      simp
    · rw [if_neg hc]
      simp
  refine ⟨huint n, ?_, ?_⟩
  · show decide ((((Ser.BitReader.new buf).runReads ws).uint 1).1 ≠ 0) = false
    rw [huint 1]
    simp
  · show Ser.wrapI32 (((((Ser.BitReader.new buf).runReads ws).uint n).1 : Int)
        - ((1 <<< (n - 1) : Nat) : Int)) = -(2 ^ (n - 1) : Int)
    rw [huint n]
    have hsh : ((1 <<< (n - 1) : Nat) : Int) = (2 ^ (n - 1) : Int) := by
      rw [Nat.shiftLeft_eq]
      push_cast
      ring
    rw [hsh]
    unfold Ser.wrapI32
    simp only [Nat.cast_zero]
    have hle : (2 ^ (n - 1) : Int) ≤ 2 ^ 31 := by
      apply pow_le_pow_right₀ (by norm_num)
      omega
    have hpos2 : (0 : Int) ≤ (0 : Int) - 2 ^ (n - 1) + 2 ^ 31 := by omega
    have hlt2 : (0 : Int) - 2 ^ (n - 1) + 2 ^ 31 < 2 ^ 32 := by
      have : (0 : Int) < 2 ^ (n - 1) := by positivity
      have h31 : (2 ^ 31 : Int) < 2 ^ 32 := by norm_num
      omega
    rw [Int.emod_eq_of_lt hpos2 hlt2]
    ring

/-- Witness for C9: a 2-byte buffer fully consumed by two 32-bit reads;
the follow-up `uint 5` is zero, `bool` is false, and `int 5` is `-16`. -/
theorem C9_exhausted_reads_witness :
    (8 * ([1, 2] : List Nat).length ≤ ([32, 32] : List Nat).sum) ∧
    ((((Ser.BitReader.new [1, 2]).runReads [32, 32]).uint 5).1 = 0) ∧
    ((((Ser.BitReader.new [1, 2]).runReads [32, 32]).bool).1 = false) ∧
    ((((Ser.BitReader.new [1, 2]).runReads [32, 32]).int 5).1 = -(2 ^ (5 - 1) : Int)) :=
  ⟨by decide,
   (C9_exhausted_reads [1, 2] [32, 32] 5 (by decide) (by decide) (by decide)
      (by decide) (by decide)).1,
   (C9_exhausted_reads [1, 2] [32, 32] 5 (by decide) (by decide) (by decide)
      (by decide) (by decide)).2.1,
   (C9_exhausted_reads [1, 2] [32, 32] 5 (by decide) (by decide) (by decide)
      (by decide) (by decide)).2.2⟩

end Voxels
